import Mathlib

/-!
Shallow embedding of the schedule-processing core of `stupl.py`
(HTW schedule scraper): the cell parser (`splitCell`), the table
normalizer (`iterateRow` / `iterateTable`), the merge engine
(`joinTables`), the filter engine (`filterLectures`) and the calendar
exporter (`make_ical`), together with theorems settling the frozen
claims about them.

Python strings are modelled as Lean `String`; Python `str.split(sep)`,
`str.strip()` and `str.upper()` are re-implemented structurally below so
that every definition evaluates inside the kernel.  Python exceptions
are modelled by `Except PyError`; the distinct exception classes the
code can raise (`IndexError`, `KeyError`, `ValueError`, `TypeError`,
`AttributeError`, and the two custom classes `CannotParseTime` and
`CannotParseCalweek`) are the constructors of `PyError`.  Python dicts
are modelled as association lists iterated in insertion order; no claim
depends on dict iteration order, only on lookup and membership.
-/

namespace Stupl

/-- Python exception outcomes of the embedded code.  Each constructor
carries the message (or offending key/string) of the exception raised at
the corresponding source line. -/
inductive PyError where
  | indexError (msg : String)
  | keyError (msg : String)
  | valueError (msg : String)
  | typeError (msg : String)
  | attributeError (msg : String)
  | cannotParseTime (msg : String)
  | cannotParseCalweek (msg : String)
deriving Repr, DecidableEq

/-- A lecture dict as built by `splitCell` (stupl.py lines 163-166):
keys `short`, `typ`, `name`, `room`; the `source` key is attached only
by `joinTables` (line 244), hence an `Option`. -/
structure Lecture where
  short : String
  typ : String
  name : String
  room : String
  source : Option Nat := none
deriving Repr, DecidableEq

/-- One weekday's dict mapping a time-slot string to its lecture list,
modelled as an association list. -/
abbrev DayMap := List (String × List Lecture)

/-- The dict returned by `iterateTable` / `joinTables` /
`filterLectures` (stupl.py line 216): the ordered slot keys, the five
weekday maps, and the raw calendar-week label (`none` models Python
`None`, the value `week` keeps when a table has no rows). -/
structure WeeklySchedule where
  order : List String
  data : List DayMap
  week : Option String
deriving Repr, DecidableEq

/-! ### Association-list primitives modelling Python dict access -/

/-- Dict lookup: first binding of key `k`, if any. -/
def alookup {α : Type} (m : List (String × α)) (k : String) : Option α :=
  match m with
  | [] => none
  | (k', v) :: rest => if k' = k then some v else alookup rest k

/-- Dict lookup defaulting to the empty lecture list (models reading a
key that the surrounding code has just ensured is present). -/
def alookupD (m : DayMap) (k : String) : List Lecture :=
  (alookup m k).getD []

/-- Dict assignment `m[k] = v`: replaces the binding of `k` in place if
present, otherwise appends a new binding. -/
def asetKey {α : Type} (m : List (String × α)) (k : String) (v : α) :
    List (String × α) :=
  match m with
  | [] => [(k, v)]
  | (k', v') :: rest => if k' = k then (k, v) :: rest else (k', v') :: asetKey rest k v

/-! ### Python string operations -/

/-- Fueled worker for `pySplit`; the fuel starts above the input length,
so the fuel-exhausted branch is never reached. -/
def splitOnAux (sep : List Char) : Nat → List Char → List Char → List (List Char)
  | 0, _, acc => [acc.reverse]
  | _ + 1, [], acc => [acc.reverse]
  | fuel + 1, c :: cs, acc =>
    if sep.isPrefixOf (c :: cs) then
      acc.reverse :: splitOnAux sep fuel (List.drop (sep.length - 1) cs) []
    else
      splitOnAux sep fuel cs (c :: acc)

/-- Python `s.split(sep)` for a non-empty separator: cut at every
leftmost non-overlapping occurrence of `sep`, keeping empty pieces. -/
def pySplit (s sep : String) : List String :=
  (splitOnAux sep.data (s.data.length + 1) s.data []).map (fun cs => String.mk cs)

/-- Python `s.strip()`: drop whitespace from both ends. -/
def pyStrip (s : String) : String :=
  String.mk (((s.data.dropWhile Char.isWhitespace).reverse.dropWhile
    Char.isWhitespace).reverse)

/-- Python `s.upper()` (ASCII letters; every string a claim exercises is
ASCII). -/
def pyUpper (s : String) : String :=
  String.mk (s.data.map Char.toUpper)

/-- Numeric value of a digit string, as Python `int()` computes it. -/
def digitsVal (cs : List Char) : Nat :=
  cs.foldl (fun n c => 10 * n + (c.toNat - 48)) 0

/-- Decimal digits of a natural number (fueled worker). -/
def natDigitsAux : Nat → Nat → List Char
  | 0, _ => []
  | _ + 1, 0 => []
  | fuel + 1, n => natDigitsAux fuel (n / 10) ++ [Char.ofNat (48 + n % 10)]

/-- Decimal rendering of a natural number. -/
def natStr (n : Nat) : String :=
  if n = 0 then "0" else String.mk (natDigitsAux (n + 1) n)

/-- Decimal rendering of an integer. -/
def intStr (i : Int) : String :=
  if i < 0 then "-" ++ natStr i.natAbs else natStr i.natAbs

/-- Unwrap an optional value, raising the given Python exception when
it is absent (models `o[i]`, `d[k]`, `o.attr` and friends). -/
def eOfOption {α : Type} (o : Option α) (e : PyError) : Except PyError α :=
  match o with
  | some a => .ok a
  | none => .error e

/-! ### Cell Parser (`splitCell`, stupl.py lines 141-167)

A cell's rendered text (line breaks already normalised to `"\n"` by the
DOM collaborator, which is out of scope) is split into blocks at blank
lines.  A block with exactly three lines whose stripped third line is
not `"-"` yields one lecture dict; `(short, typ) = lines[1].split(" ")`
(line 162) raises `ValueError` when the second line does not split into
exactly two pieces. -/

/-- Loop body of `splitCell` over the blank-line-separated blocks:
skip a block without exactly three lines (line 157), strip the lines
(line 160), drop the block when the third line is `"-"` (line 161),
otherwise unpack `lines[1].split(" ")` into `(short, typ)` — a
`ValueError` unless it has exactly two pieces (line 162) — and append
the lecture dict. -/
def splitCellLoop (acc : List Lecture) : List String → Except PyError (List Lecture)
  | [] => .ok acc
  | elem :: rest =>
    let lines := pySplit elem "\n"
    if lines.length = 3 then
      if pyStrip (lines.getD 2 "") ≠ "-" then
        let parts := pySplit (pyStrip (lines.getD 1 "")) " "
        if parts.length = 2 then
          splitCellLoop (acc ++ [{ short := parts.getD 0 "", typ := parts.getD 1 "",
                                   name := pyStrip (lines.getD 0 ""),
                                   room := pyStrip (lines.getD 2 "") }]) rest
        else .error (.valueError ("values to unpack: " ++ natStr parts.length))
      else splitCellLoop acc rest
    else splitCellLoop acc rest

/-- Python `splitCell`: the cell text is split on `"\n\n"` and each
block contributes per `splitCellLoop`. -/
def splitCell (cell : String) : Except PyError (List Lecture) :=
  splitCellLoop [] (pySplit cell "\n\n")

/-! ### Table Normalizer (`iterateRow` / `iterateTable`, lines 170-216) -/

/-- The `time` and per-day lecture lists of one table row. -/
structure RowData where
  time : String
  days : List (List Lecture)
deriving Repr, DecidableEq

/-- Python `row[i]`, raising `IndexError` when out of range (models
`tds[idx]` on a row with too few cells). -/
def getCell (row : List String) (i : Nat) : Except PyError String :=
  match row.get? i with
  | some c => .ok c
  | none => .error (.indexError "list index out of range")

/-- Loop over `idx in range(1, 6)` of `iterateRow`: apply `splitCell` to
the five weekday cells in order. -/
def rowLoop (row : List String) (acc : List (List Lecture)) :
    List Nat → Except PyError (List (List Lecture))
  | [] => .ok acc
  | i :: rest => do
    let c ← getCell row i
    let lecs ← splitCell c
    rowLoop row (acc ++ [lecs]) rest

/-- Python `iterateRow`: the time label is cell 0, the five weekday
cells are 1-5. -/
def iterateRow (row : List String) : Except PyError RowData := do
  let t ← getCell row 0
  let days ← rowLoop row [] [1, 2, 3, 4, 5]
  pure { time := t, days := days }

/-- Loop of `iterateTable` over the rows: the first row supplies the
week label (its first cell); every later row appends its time to
`order` and stores its five cell parses under that time in each weekday
map. -/
def tableLoop (week : Option String) (order : List String) (days : List DayMap) :
    List (List String) → Except PyError (Option String × List String × List DayMap)
  | [] => .ok (week, order, days)
  | row :: rest =>
    match week with
    | none => do
      let w ← getCell row 0
      tableLoop (some w) order days rest
    | some w => do
      let rd ← iterateRow row
      tableLoop (some w) (order ++ [rd.time])
        ((List.range 5).map (fun x =>
          asetKey (days.getD x []) rd.time (rd.days.getD x []))) rest

/-- Python `iterateTable`: a table is its list of rows, each row its
list of cell texts. -/
def iterateTable (rows : List (List String)) : Except PyError WeeklySchedule := do
  let (week, order, days) ← tableLoop none [] (List.replicate 5 []) rows
  pure { order := order, data := days, week := week }

/-! ### Merge Engine (`joinTables`, lines 219-247) -/

/-- Body of `for lecture in data[x][time]` (lines 241-245): skip the
lecture when its `room` is already present in the collected bucket,
otherwise tag it with the source index and append it. -/
def mergeSlotStep (bucket : List Lecture) (idx : Nat) (lecture : Lecture) :
    List Lecture :=
  if lecture.room ∈ bucket.map (fun lx => lx.room) then bucket
  else bucket ++ [{ lecture with source := some idx }]

/-- Merge one source's lecture list for one slot into the bucket. -/
def mergeSlot (bucket : List Lecture) (idx : Nat) (lecs : List Lecture) :
    List Lecture :=
  lecs.foldl (fun b l => mergeSlotStep b idx l) bucket

/-- Body of `for time in data[x]` (lines 238-245): each slot key of the
source's weekday dict is created in the accumulator if absent and its
lectures merged into that bucket. -/
def mergeDay (acc : DayMap) (idx : Nat) (src : DayMap) : DayMap :=
  src.foldl (fun a p => asetKey a p.1 (mergeSlot (alookupD a p.1) idx p.2)) acc

/-- Body of `for x in range(0, 5)` (lines 237-245) for one source. -/
def mergeSource (days : List DayMap) (idx : Nat) (item : WeeklySchedule) :
    List DayMap :=
  (List.range 5).map (fun x => mergeDay (days.getD x []) idx (item.data.getD x []))

/-- The `for idx in range(0, len(data_list))` loop (lines 234-245). -/
def joinLoop (days : List DayMap) (idx : Nat) :
    List WeeklySchedule → List DayMap
  | [] => days
  | item :: rest => joinLoop (mergeSource days idx item) (idx + 1) rest

/-- Python `joinTables`: `None` on an empty input list (line 229-230),
otherwise the first input's `order` and `week` with the merged days. -/
def joinTables (dataList : List WeeklySchedule) : Option WeeklySchedule :=
  match dataList with
  | [] => none
  | first :: _ =>
    some { order := first.order,
           data := joinLoop (List.replicate 5 []) 0 dataList,
           week := first.week }

/-! ### Filter Engine (`filterLectures`, lines 250-281) -/

/-- Body of `for lecture in day[time]` (lines 273-279).  The allow test
is `lecture['short'].upper() in lectures or lectures[0] == "ALL"`
(Python short-circuits, so `lectures[0]` is only read when the first
disjunct is false, raising `IndexError` on an empty allow-list).  The
instructor is `lecture['room'].split('-')[1].strip().upper()` (line
276), which raises `IndexError` when the room contains no `'-'`. -/
def filterLecture (lecturesU blacklistU : List String) (acc : List Lecture)
    (lecture : Lecture) : Except PyError (List Lecture) := do
  let passAllow ←
    if pyUpper lecture.short ∈ lecturesU then pure true
    else match lecturesU with
      | [] => Except.error (.indexError "list index out of range")
      | first :: _ => pure (decide (first = "ALL"))
  if passAllow then
    match (pySplit lecture.room "-").get? 1 with
    | none => Except.error (.indexError "list index out of range")
    | some seg =>
      let teacher := pyUpper (pyStrip seg)
      if teacher ∈ blacklistU then pure acc else pure (acc ++ [lecture])
  else
    pure acc

/-- Fold of `filterLecture` over one slot's bucket. -/
def filterBucket (lecturesU blacklistU : List String) (acc : List Lecture) :
    List Lecture → Except PyError (List Lecture)
  | [] => .ok acc
  | l :: rest => do
    let acc' ← filterLecture lecturesU blacklistU acc l
    filterBucket lecturesU blacklistU acc' rest

/-- The `for time in order` loop (lines 271-279): `day[time]` raises
`KeyError` when a slot of `order` is missing from the weekday dict. -/
def filterDay (lecturesU blacklistU : List String) (day : DayMap)
    (filtered : DayMap) : List String → Except PyError DayMap
  | [] => .ok filtered
  | time :: rest => do
    let bucket ← eOfOption (alookup day time) (.keyError time)
    let kept ← filterBucket lecturesU blacklistU [] bucket
    filterDay lecturesU blacklistU day (asetKey filtered time kept) rest

/-- Python `filterLectures`: uppercase both lists, then rebuild each
weekday map over the slots of `order`. -/
def filterLectures (data : WeeklySchedule) (lectures teacher_blacklist : List String) :
    Except PyError WeeklySchedule := do
  let lecturesU := lectures.map pyUpper
  let blacklistU := teacher_blacklist.map pyUpper
  let newDays ← data.data.mapM (fun day =>
    filterDay lecturesU blacklistU day [] data.order)
  pure { order := data.order, data := newDays, week := data.week }

/-! ### Calendar Exporter (`make_ical`, lines 428-495)

Dates are modelled by their proleptic-Gregorian ordinal (day 1 =
January 1 of year 1, a Monday), the representation Python's `datetime`
uses internally; a `datetime` value is an ordinal plus hour and minute
(seconds and microseconds are zeroed by every `relativedelta` the code
applies, so they are omitted).  Since
`datetime.now() + relativedelta(month=1, day=4, weekday=MO(-1),
weeks=+(calweek-1), hour=0, minute=0, second=0, microsecond=0)`
replaces the month, day and time-of-day fields of `now` before adding
the week delta and stepping back to Monday, only the **year** of
`datetime.now()` can influence the result; `make_ical` therefore takes
that year as its `nowYear` argument. -/

/-- Python `datetime` restricted to the fields the code can produce. -/
structure PyDateTime where
  ord : Int
  hour : Nat
  minute : Nat
deriving Repr, DecidableEq

/-- Ordinal of January 4 of the given year (days-before-year formula of
the proleptic Gregorian calendar, as in Python's `datetime`). -/
def jan4Ordinal (year : Nat) : Int :=
  ((365 * (year - 1) + (year - 1) / 4 - (year - 1) / 100 + (year - 1) / 400 + 4 : Nat) : Int)

/-- Weekday of an ordinal: 0 = Monday .. 6 = Sunday. -/
def weekdayOf (ord : Int) : Int := (ord - 1) % 7

/-- The dateutil weekday adjustment `MO(-1)`: the Monday on or before
the given day. -/
def mondayOnOrBefore (ord : Int) : Int := ord - weekdayOf ord

/-- The first week's `begin_date` (line 463): replace `now`'s month/day
by January 4 and its time by midnight, add `calweek - 1` weeks, then
step back to Monday.  Only the ordinal is returned; the time-of-day is
midnight. -/
def firstBeginOrd (nowYear : Nat) (calweek : Nat) : Int :=
  let base := jan4Ordinal nowYear + 7 * ((calweek : Int) - 1)
  base - weekdayOf base

/-- The regex `^(\d+)\. KW$` (line 437): a non-empty digit prefix
followed by exactly `". KW"`; yields the week number. -/
def parseCalweek (s : String) : Option Nat :=
  let ds := s.data.takeWhile Char.isDigit
  let rest := s.data.dropWhile Char.isDigit
  if ds ≠ [] ∧ rest = (". KW").data then some (digitsVal ds) else none

/-- Whether a character list is all digits. -/
def allDigits (cs : List Char) : Bool := cs.all Char.isDigit

/-- One `(\d+)\.(\d+)` group pair of the time regex. -/
def parseHM (s : String) : Option (Nat × Nat) :=
  match pySplit s "." with
  | [h, m] =>
    if h.data ≠ [] ∧ m.data ≠ [] ∧ allDigits h.data ∧ allDigits m.data then
      some (digitsVal h.data, digitsVal m.data)
    else none
  | _ => none

/-- The regex `^(\d+)\.(\d+) - (\d+)\.(\d+)$` (line 438): start and end
hour/minute pairs of a slot key. -/
def parseTimeSlot (s : String) : Option ((Nat × Nat) × (Nat × Nat)) :=
  match pySplit s " - " with
  | [a, b] =>
    match parseHM a, parseHM b with
    | some p, some q => some (p, q)
    | _, _ => none
  | _ => none

/-- Join a list of strings with a separator (used to rebuild the greedy
first group of the room regex). -/
def joinSep (sep : String) : List String → String
  | [] => ""
  | [x] => x
  | x :: xs => x ++ sep ++ joinSep sep xs

/-- The regex `^(.*) - (.*)$` (line 439) with greedy `.*`: matches iff
the room contains `" - "`; group 1 is everything before the **last**
occurrence, group 2 everything after it. -/
def roomMatch (room : String) : Option (String × String) :=
  let parts := pySplit room " - "
  if parts.length ≥ 2 then some (joinSep " - " parts.dropLast, parts.getLastD "")
  else none

/-- The `cat_map` dict (lines 452-454), keyed by the first character of
`typ`. -/
def catMap (c : Char) : Option String :=
  if c = 'V' then some "Vorlesung"
  else if c = 'Ü' then some "Übung"
  else if c = 'P' then some "Praktikum"
  else none

/-- Modelled: `uuid.uuid3` is the RFC 4122 name-based (MD5) UUID, a
deterministic function of the namespace and name; the hash itself is
irrelevant to every claim, so it is modelled as an injective encoding
of its two inputs. -/
def uuid3 (ns name : String) : String := ns ++ "/" ++ name

/-- The `uuid.NAMESPACE_DNS` constant. -/
def NAMESPACE_DNS : String := "6ba7b810-9dad-11d1-80b4-00c04fd430c8"

/-- Modelled: `str()` of a datetime, an injective rendering of the
value (the concrete digits Python prints do not matter to any claim). -/
def pyDateTimeStr (d : PyDateTime) : String :=
  intStr d.ord ++ "T" ++ natStr d.hour ++ ":" ++ natStr d.minute

/-- One exported `vevent` with the fields the code sets. -/
structure IcalEvent where
  dtstart : PyDateTime
  dtend : PyDateTime
  category : Option String
  location : Option String
  summary : String
  description : String
  uid : String
deriving Repr, DecidableEq

/-- Lookup table from slot string to parsed start/end pairs. -/
abbrev Times := List (String × ((Nat × Nat) × (Nat × Nat)))

/-- The `for time in data[0]['order']` loop (lines 441-448): every slot
key must match the time regex, else `CannotParseTime` carries the
offending string. -/
def timesLoop (times : Times) : List String → Except PyError Times
  | [] => .ok times
  | t :: rest =>
    match parseTimeSlot t with
    | none => .error (.cannotParseTime ("String was: " ++ t))
    | some p => timesLoop (asetKey times t p) rest

/-- One update of `begin_date` (lines 458-465): on the first iteration
(`begin_date` still `None`) the week label must match the calendar-week
regex — a `None` label (table without rows) is a `TypeError` in
`re.match`, a non-matching label raises `CannotParseCalweek` carrying
the string — and the anchor is computed from the current year; on every
later iteration the previous anchor is advanced by exactly 7 days,
without looking at that week's own label. -/
def beginDateUpd (weekLabel : Option String) (nowYear : Nat) (cur : Option Int) :
    Except PyError Int :=
  match cur with
  | some d => .ok (d + 7)
  | none =>
    match weekLabel with
    | none => .error (.typeError "expected string or buffer")
    | some lbl =>
      match parseCalweek lbl with
      | none => .error (.cannotParseCalweek ("String was: " ++ lbl))
      | some n => .ok (firstBeginOrd nowYear n)

/-- One `vevent` (lines 472-492), built in source order: start/end from
the parsed slot (`KeyError` if the slot key is absent from `times`),
category from `typ[0]` (`IndexError` on an empty `typ`), location and
instructor from the room regex, description from the instructor, the
raw `typ` and the source headline (`KeyError` on an untagged record,
`IndexError` on a bad source index), and the uid from the location —
read unconditionally, so `AttributeError` when no location was set —
and the start timestamp. -/
def makeEvent (times : Times) (sources : List String) (dayDate : Int)
    (time : String) (entry : Lecture) : Except PyError IcalEvent := do
  let t ← eOfOption (alookup times time) (.keyError time)
  let dtstart : PyDateTime := { ord := dayDate, hour := t.1.1, minute := t.1.2 }
  let dtend : PyDateTime := { ord := dayDate, hour := t.2.1, minute := t.2.2 }
  let c ← eOfOption entry.typ.data.head? (.indexError "string index out of range")
  let category := catMap c
  let cat := match category with
    | some nm => " (" ++ nm ++ ")"
    | none => ""
  let lt := match roomMatch entry.room with
    | some (g1, g2) => (some (pyStrip g1), g2)
    | none => (none, entry.room)
  let summary := entry.name ++ cat
  let srcIdx ← eOfOption entry.source (.keyError "source")
  let headline ← eOfOption (sources.get? srcIdx) (.indexError "list index out of range")
  let description := lt.2 ++ "\n" ++ entry.typ ++ "\n" ++ headline
  let loc ← eOfOption lt.1 (.attributeError "location")
  let uid := uuid3 NAMESPACE_DNS (loc ++ " " ++ pyDateTimeStr dtstart)
  pure { dtstart := dtstart, dtend := dtend, category := category,
         location := lt.1, summary := summary, description := description,
         uid := uid }

/-- The `for entry in day_data[time]` loop (lines 471-492). -/
def entriesLoop (times : Times) (sources : List String) (dayDate : Int)
    (time : String) (acc : List IcalEvent) :
    List Lecture → Except PyError (List IcalEvent)
  | [] => .ok acc
  | entry :: rest => do
    let ev ← makeEvent times sources dayDate time entry
    entriesLoop times sources dayDate time (acc ++ [ev]) rest

/-- The `for time in day_data` loop (line 470), iterating the weekday
dict. -/
def slotsLoop (times : Times) (sources : List String) (dayDate : Int)
    (acc : List IcalEvent) : DayMap → Except PyError (List IcalEvent)
  | [] => .ok acc
  | (time, entries) :: rest => do
    let acc' ← entriesLoop times sources dayDate time acc entries
    slotsLoop times sources dayDate acc' rest

/-- The `for day in range(0, 5)` loop (lines 467-492): `week['data'][day]`
raises `IndexError` when a week has fewer than five weekday maps. -/
def daysLoop (times : Times) (sources : List String) (beginDate : Int)
    (week : WeeklySchedule) (acc : List IcalEvent) :
    List Nat → Except PyError (List IcalEvent)
  | [] => .ok acc
  | day :: rest => do
    let dayData ← eOfOption (week.data.get? day) (.indexError "list index out of range")
    let acc' ← slotsLoop times sources (beginDate + (day : Int)) acc dayData
    daysLoop times sources beginDate week acc' rest

/-- Python `make_ical`.  `data[0]['order']` (line 442) raises
`IndexError` on an empty week list.  The `return calendar.serialize()`
of the source sits **inside** the `for week in data:` loop (line 495, at
the indentation of the day loop), so the function returns at the end of
the loop's first iteration: only the first week of `data` is ever
exported, and the `begin_date + 7 days` branch of `beginDateUpd` is
unreachable from here.  The serialized calendar is modelled by the list
of its events. -/
def make_ical (data : List WeeklySchedule) (sources : List String)
    (nowYear : Nat) : Except PyError (List IcalEvent) := do
  let first ← eOfOption data.head? (.indexError "list index out of range")
  let times ← timesLoop [] first.order
  let beginDate ← beginDateUpd first.week nowYear none
  daysLoop times sources beginDate first [] [0, 1, 2, 3, 4]

end Stupl

deriving instance DecidableEq for Except

namespace Stupl

/-! ### Generic helper lemmas -/

theorem ebind_ok {α β : Type} (a : α) (f : α → Except PyError β) :
    (Except.ok a >>= f) = f a := rfl

theorem ebind_err {α β : Type} (e : PyError) (f : α → Except PyError β) :
    ((Except.error e : Except PyError α) >>= f) = Except.error e := rfl

theorem eOfOption_some {α : Type} (a : α) (e : PyError) :
    eOfOption (some a) e = .ok a := rfl

theorem eOfOption_none {α : Type} (e : PyError) :
    eOfOption (none : Option α) e = .error e := rfl

theorem alookup_asetKey_self {α : Type} (m : List (String × α)) (k : String) (v : α) :
    alookup (asetKey m k v) k = some v := by
  induction m with
  | nil => simp [alookup, asetKey]
  | cons p rest ih =>
    by_cases h : p.1 = k
    · simp [alookup, asetKey, h]
    · simp [alookup, asetKey, h, ih]

theorem alookup_asetKey_other {α : Type} (m : List (String × α)) (k t : String) (v : α)
    (h : t ≠ k) : alookup (asetKey m k v) t = alookup m t := by
  have h' : ¬ k = t := fun hc => h hc.symm
  induction m with
  | nil => simp [alookup, asetKey, h']
  | cons p rest ih =>
    obtain ⟨k', v'⟩ := p
    by_cases hp : k' = k
    · subst hp
      simp [alookup, asetKey, h']
    · by_cases ht : k' = t
      · simp [alookup, asetKey, hp, ht, h]
      · simp [alookup, asetKey, hp, ht, ih]

/-! ### Concrete inputs used by witnesses and counterexamples -/

/-- A lecture record with a well-formed room string, tagged source 0. -/
def lecCS : Lecture :=
  { short := "CS", typ := "V", name := "Compilers", room := "R1.10 - Hollas",
    source := some 0 }

/-- A second tagged lecture record with a different room. -/
def lecGPM : Lecture :=
  { short := "GPM", typ := "Ü", name := "Projekt", room := "R2.20 - Meier",
    source := some 0 }

/-- A weekday map holding the single slot with no lectures. -/
def emptySlot : DayMap := [("8.00 - 9.30", [])]

/-- Week 41 with `lecCS` on Monday. -/
def weekOne : WeeklySchedule :=
  { order := ["8.00 - 9.30"],
    data := [[("8.00 - 9.30", [lecCS])], emptySlot, emptySlot, emptySlot, emptySlot],
    week := some "41. KW" }

/-- Week 42 with `lecGPM` on Monday. -/
def weekTwo : WeeklySchedule :=
  { order := ["8.00 - 9.30"],
    data := [[("8.00 - 9.30", [lecGPM])], emptySlot, emptySlot, emptySlot, emptySlot],
    week := some "42. KW" }

/-! ### Claim C1 -/

/-- Number of lecture records in one weekday map. -/
def slotRecordCount (dm : DayMap) : Nat :=
  (dm.map (fun p => p.2.length)).sum

/-- Number of (weekday 0-4, slot, record) tuples of one week. -/
def weekRecordCount (ws : WeeklySchedule) : Nat :=
  ((List.range 5).map (fun x => slotRecordCount (ws.data.getD x []))).sum

/-- Number of (week, weekday 0-4, slot, record) tuples of a week list. -/
def totalRecordCount (data : List WeeklySchedule) : Nat :=
  (data.map weekRecordCount).sum

/-- C1, divergence witness: on a two-week input holding one record in
each week (two (week, weekday, slot, record) tuples in total, both
surviving filtering), `make_ical` completes successfully but emits a
calendar with a single event — the `return` inside the week loop
(stupl.py line 495) drops every week after the first, contradicting the
claim that one event is emitted per tuple over all weeks. -/
theorem c1_first_week_only_eval :
    totalRecordCount [weekOne, weekTwo] = 2 ∧
    (make_ical [weekOne, weekTwo] ["Headline 1"] 2024).map List.length =
      Except.ok 1 := by
  constructor
  · decide
  · decide

/-! ### Claim C2 -/

theorem timesLoop_ok (init : Times) (order : List String)
    (h : ∀ t ∈ order, (parseTimeSlot t).isSome) :
    ∃ tm, timesLoop init order = .ok tm := by
  induction order generalizing init with
  | nil => exact ⟨init, rfl⟩
  | cons t rest ih =>
    obtain ⟨p, hp⟩ := Option.isSome_iff_exists.mp (h t (by simp))
    simp only [timesLoop, hp]
    exact ih _ (fun u hu => h u (by simp [hu]))

theorem firstBeginOrd_eq (nowYear calweek : Nat) :
    firstBeginOrd nowYear calweek =
      mondayOnOrBefore (jan4Ordinal nowYear) + 7 * ((calweek : Int) - 1) := by
  simp only [firstBeginOrd, mondayOnOrBefore, weekdayOf]
  omega

/-- C2: provided the first week's label matches `"<N>. KW"`, the first
anchor is the Monday on or before January 4 of the current year,
advanced by `N - 1` weeks, at midnight (`beginDateUpd` returns the
ordinal; the constructed datetime has hour and minute 0); every later
week's anchor is the previous one plus exactly 7 days, computed without
consulting a label; and a non-matching first label makes `make_ical`
raise `CannotParseCalweek` carrying the offending string (time-slot
parsing happens first, so the slots are assumed well formed). -/
theorem c2_week_anchor (nowYear : Nat) :
    (∀ lbl n, parseCalweek lbl = some n →
      beginDateUpd (some lbl) nowYear none =
        .ok (mondayOnOrBefore (jan4Ordinal nowYear) + 7 * ((n : Int) - 1))) ∧
    (∀ lblOpt d, beginDateUpd lblOpt nowYear (some d) = .ok (d + 7)) ∧
    (∀ lbl, parseCalweek lbl = none →
      beginDateUpd (some lbl) nowYear none =
        .error (.cannotParseCalweek ("String was: " ++ lbl))) ∧
    (∀ (w : WeeklySchedule) rest sources lbl,
      (∀ t ∈ w.order, (parseTimeSlot t).isSome) → w.week = some lbl →
      parseCalweek lbl = none →
      make_ical (w :: rest) sources nowYear =
        .error (.cannotParseCalweek ("String was: " ++ lbl))) := by
  refine ⟨?_, ?_, ?_, ?_⟩
  · intro lbl n hp
    simp only [beginDateUpd, hp, firstBeginOrd_eq]
  · intro lblOpt d
    rfl
  · intro lbl hp
    simp only [beginDateUpd, hp]
  · intro w rest sources lbl hts hw hp
    obtain ⟨tm, htm⟩ := timesLoop_ok [] w.order hts
    have hstep : make_ical (w :: rest) sources nowYear =
        (timesLoop [] w.order >>= fun times =>
          beginDateUpd w.week nowYear none >>= fun beginDate =>
            daysLoop times sources beginDate w [] [0, 1, 2, 3, 4]) := rfl
    rw [hstep, htm, ebind_ok, hw]
    simp only [beginDateUpd, hp, ebind_err]

/-- Witness for C2 at concrete inputs. -/
theorem c2_week_anchor_witness :
    beginDateUpd (some "41. KW") 2024 none =
      .ok (mondayOnOrBefore (jan4Ordinal 2024) + 7 * ((41 : Int) - 1)) ∧
    beginDateUpd (some "41. KW") 2024 (some 738893) = .ok (738893 + 7) ∧
    beginDateUpd (some "KW 41") 2024 none =
      .error (.cannotParseCalweek "String was: KW 41") ∧
    make_ical [{ weekOne with week := some "KW 41" }] ["Headline 1"] 2024 =
      .error (.cannotParseCalweek "String was: KW 41") := by
  refine ⟨?_, ?_, ?_, ?_⟩
  · exact (c2_week_anchor 2024).1 "41. KW" 41 (by decide)
  · exact (c2_week_anchor 2024).2.1 (some "41. KW") 738893
  · exact (c2_week_anchor 2024).2.2.1 "KW 41" (by decide)
  · exact (c2_week_anchor 2024).2.2.2 _ [] ["Headline 1"] "KW 41"
      (by decide) rfl (by decide)

/-! ### Claim C3 -/

/-- A lecture whose room string contains neither `" - "` nor `'-'`. -/
def lecNoHyphen : Lecture :=
  { short := "CS", typ := "V", name := "Compilers", room := "R1.10" }

/-- A weekly schedule carrying `lecNoHyphen` on Monday. -/
def wsNoHyphen : WeeklySchedule :=
  { order := ["8.00 - 9.30"],
    data := [[("8.00 - 9.30", [lecNoHyphen])],
             emptySlot, emptySlot, emptySlot, emptySlot],
    week := some "41. KW" }

/-- C3, counterexample to the claim as stated: `lecNoHyphen.room`
lacks the `" - "` separator, the record passes the allow-list, and
`filterLectures` aborts the whole run with an `IndexError` from
`room.split('-')[1]` (line 276) instead of treating the room as the
instructor segment. -/
theorem c3_counterexample :
    (pySplit lecNoHyphen.room " - ").length = 1 ∧
    filterLectures wsNoHyphen ["CS"] [] =
      .error (.indexError "list index out of range") := by
  constructor
  · decide
  · decide

/-- C3, corrected: for a record that passes the allow-list, the
instructor segment is the **second** field of `room.split('-')` — so a
room lacking `" - "` is tolerated only when it contains at least one
`'-'` (the record is then kept or dropped solely by the deny-list),
while a room with no `'-'` at all raises an `IndexError` that aborts
the run. -/
theorem c3_filter_room_amended (blacklistU : List String) (acc : List Lecture)
    (lecture : Lecture) :
    (∀ lecturesU, pyUpper lecture.short ∈ lecturesU →
      (pySplit lecture.room "-").get? 1 = none →
      filterLecture lecturesU blacklistU acc lecture =
        .error (.indexError "list index out of range")) ∧
    (∀ lecturesU seg, pyUpper lecture.short ∈ lecturesU →
      (pySplit lecture.room "-").get? 1 = some seg →
      filterLecture lecturesU blacklistU acc lecture =
        .ok (if pyUpper (pyStrip seg) ∈ blacklistU then acc else acc ++ [lecture])) := by
  constructor
  · intro lecturesU hallow hnone
    simp only [filterLecture, if_pos hallow, ebind_ok, hnone]
    rfl
  · intro lecturesU seg hallow hseg
    simp only [filterLecture, if_pos hallow, ebind_ok, hseg]
    by_cases hb : pyUpper (pyStrip seg) ∈ blacklistU
    · simp only [if_pos hb]
      rfl
    · simp only [if_neg hb]
      rfl

/-- Witness for the corrected C3: a room with one `'-'` but no `" - "`
is kept with the text after the hyphen as instructor; a room with no
hyphen raises. -/
theorem c3_filter_room_amended_witness :
    filterLecture ["CS"] [] [] lecNoHyphen =
      .error (.indexError "list index out of range") ∧
    filterLecture ["CS"] [] [] { lecNoHyphen with room := "R1-10" } =
      .ok [{ lecNoHyphen with room := "R1-10" }] := by
  constructor
  · exact (c3_filter_room_amended [] [] lecNoHyphen).1 ["CS"] (by decide) (by decide)
  · have h := (c3_filter_room_amended [] [] { lecNoHyphen with room := "R1-10" }).2
      ["CS"] "10" (by decide) (by decide)
    simpa using h

/-! ### Claim C9 -/

theorem epure_bind {α β : Type} (a : α) (f : α → Except PyError β) :
    ((pure a : Except PyError α) >>= f) = f a := rfl

theorem alookup_asetKey_isSome {α : Type} (m : List (String × α)) (k t : String)
    (v : α) :
    (alookup (asetKey m k v) t).isSome ↔ t = k ∨ (alookup m t).isSome := by
  by_cases h : t = k
  · subst h
    simp [alookup_asetKey_self]
  · simp [alookup_asetKey_other _ _ _ _ h, h]

theorem tableLoop_invariant (rows : List (List String)) :
    ∀ (week : Option String) (order : List String) (days : List DayMap),
      days.length = 5 →
      (∀ dm ∈ days, ∀ t, (alookup dm t).isSome ↔ t ∈ order) →
      ∀ res, tableLoop week order days rows = .ok res →
        res.2.2.length = 5 ∧
        ∀ dm ∈ res.2.2, ∀ t, (alookup dm t).isSome ↔ t ∈ res.2.1 := by
  induction rows with
  | nil =>
    intro week order days hlen hinv res h
    cases h
    exact ⟨hlen, hinv⟩
  | cons row rest ih =>
    intro week order days hlen hinv res h
    cases week with
    | none =>
      simp only [tableLoop] at h
      cases hg : getCell row 0 with
      | error e => rw [hg, ebind_err] at h; cases h
      | ok w =>
        rw [hg, ebind_ok] at h
        exact ih (some w) order days hlen hinv res h
    | some w =>
      simp only [tableLoop] at h
      cases hr : iterateRow row with
      | error e => rw [hr, ebind_err] at h; cases h
      | ok rd =>
        rw [hr, ebind_ok] at h
        refine ih (some w) (order ++ [rd.time]) _ (by simp) ?_ res h
        intro dm hdm t
        obtain ⟨x, hx, rfl⟩ := List.mem_map.mp hdm
        have hx5 : x < 5 := List.mem_range.mp hx
        have hbase : days.getD x [] ∈ days := by
          have hxl : x < days.length := by rw [hlen]; exact hx5
          rw [List.getD_eq_getElem _ _ hxl]
          exact List.getElem_mem _
        rw [alookup_asetKey_isSome, hinv _ hbase t]
        simp only [List.mem_append, List.mem_singleton]
        tauto

/-- Keys of a weekday map rebuilt by `filterDay` are exactly the keys
already placed plus the slots of the remaining `order`. -/
theorem filterDay_keys (lecturesU blacklistU : List String) (day : DayMap)
    (order : List String) :
    ∀ (filtered res : DayMap),
      filterDay lecturesU blacklistU day filtered order = .ok res →
      ∀ t, (alookup res t).isSome ↔ (alookup filtered t).isSome ∨ t ∈ order := by
  induction order with
  | nil =>
    intro filtered res h t
    cases h
    simp
  | cons time rest ih =>
    intro filtered res h t
    simp only [filterDay] at h
    cases hb : alookup day time with
    | none => rw [hb, eOfOption_none, ebind_err] at h; cases h
    | some b =>
      rw [hb, eOfOption_some, ebind_ok] at h
      cases hk : filterBucket lecturesU blacklistU [] b with
      | error e => rw [hk, ebind_err] at h; cases h
      | ok kept =>
        rw [hk, ebind_ok] at h
        have := ih _ _ h t
        rw [this, alookup_asetKey_isSome]
        simp only [List.mem_cons]
        tauto

/-- Successful `mapM` over `filterDay`: one output map per input map,
each produced by `filterDay` from some input weekday. -/
theorem mapM_filterDay (lecturesU blacklistU : List String) (order : List String) :
    ∀ (days newDays : List DayMap),
      days.mapM (fun day => filterDay lecturesU blacklistU day [] order) =
        .ok newDays →
      newDays.length = days.length ∧
      ∀ dm ∈ newDays, ∃ day ∈ days,
        filterDay lecturesU blacklistU day [] order = .ok dm := by
  intro days
  induction days with
  | nil =>
    intro newDays h
    cases h
    simp
  | cons day rest ih =>
    intro newDays h
    rw [List.mapM_cons] at h
    cases hd : filterDay lecturesU blacklistU day [] order with
    | error e => rw [hd, ebind_err] at h; cases h
    | ok dm0 =>
      rw [hd, ebind_ok] at h
      cases hrest : rest.mapM (fun day => filterDay lecturesU blacklistU day [] order) with
      | error e => rw [hrest, ebind_err] at h; cases h
      | ok restDays =>
        rw [hrest, ebind_ok] at h
        cases h
        obtain ⟨hlen, hmem⟩ := ih restDays hrest
        refine ⟨by simp [hlen], ?_⟩
        intro dm hdm
        rcases List.mem_cons.mp hdm with hdm0 | hdmr
        · exact ⟨day, List.mem_cons_self _ _, by rw [hd, hdm0]⟩
        · obtain ⟨day', hd', hfd'⟩ := hmem dm hdmr
          exact ⟨day', List.mem_cons_of_mem _ hd', hfd'⟩

theorem filterLectures_shape (d : WeeklySchedule) (lectures bl : List String)
    (ws : WeeklySchedule) (h : filterLectures d lectures bl = .ok ws) :
    ws.order = d.order ∧ ws.week = d.week ∧ ws.data.length = d.data.length ∧
    ∀ dm ∈ ws.data, ∃ day ∈ d.data, filterDay (lectures.map pyUpper)
      (bl.map pyUpper) day [] d.order = .ok dm := by
  simp only [filterLectures] at h
  cases hm : d.data.mapM (fun day =>
      filterDay (lectures.map pyUpper) (bl.map pyUpper) day [] d.order) with
  | error e => rw [hm, ebind_err] at h; cases h
  | ok newDays =>
    rw [hm, ebind_ok] at h
    cases h
    obtain ⟨hlen, hmem⟩ := mapM_filterDay _ _ _ _ _ hm
    exact ⟨rfl, rfl, hlen, hmem⟩

/-- C9: every `WeeklySchedule` a successful `iterateTable` run returns
has five weekday maps whose keys are exactly the slots of `order`, and
every `WeeklySchedule` a successful `filterLectures` run returns keeps
`order` and `week`, keeps the number of weekday maps, and again has
each weekday map keyed by exactly the slots of `order` (a slot with no
surviving lectures is still present, bound to a possibly empty list). -/
theorem c9_invariant_holds :
    (∀ rows ws, iterateTable rows = .ok ws →
      ws.data.length = 5 ∧
      ∀ dm ∈ ws.data, ∀ t, (alookup dm t).isSome ↔ t ∈ ws.order) ∧
    (∀ d lectures bl ws, filterLectures d lectures bl = .ok ws →
      ws.order = d.order ∧ ws.data.length = d.data.length ∧
      ∀ dm ∈ ws.data, ∀ t, (alookup dm t).isSome ↔ t ∈ ws.order) := by
  constructor
  · intro rows ws h
    simp only [iterateTable] at h
    cases ht : tableLoop none [] (List.replicate 5 []) rows with
    | error e => rw [ht, ebind_err] at h; cases h
    | ok res =>
      rw [ht, ebind_ok] at h
      obtain ⟨w, o, d⟩ := res
      cases h
      have := tableLoop_invariant rows none [] (List.replicate 5 [])
        (by simp) (by intro dm hdm t; simp [List.eq_of_mem_replicate hdm, alookup])
        (w, o, d) ht
      exact this
  · intro d lectures bl ws h
    obtain ⟨ho, hw, hlen, hmem⟩ := filterLectures_shape d lectures bl ws h
    refine ⟨ho, hlen, ?_⟩
    intro dm hdm t
    obtain ⟨day, _, hfd⟩ := hmem dm hdm
    have := filterDay_keys _ _ day d.order [] dm hfd t
    rw [this, ho]
    simp [alookup]

/-- A table with a header row and one slot row, as `iterateTable`
consumes it. -/
def c9rows : List (List String) :=
  [["41. KW"],
   ["8.00 - 9.30", "Compilers\nCS V\nR1.10 - Hollas", "", "", "", ""]]

/-- The schedule `iterateTable` produces from `c9rows`. -/
def c9ws : WeeklySchedule :=
  (iterateTable c9rows).toOption.getD { order := [], data := [], week := none }

/-- The schedule `filterLectures` produces from `weekOne`. -/
def c9fws : WeeklySchedule :=
  (filterLectures weekOne ["CS"] []).toOption.getD
    { order := [], data := [], week := none }

/-- Witness for C9 at concrete inputs. -/
theorem c9_invariant_holds_witness :
    (c9ws.data.length = 5 ∧
      ((alookup (c9ws.data.getD 0 []) "8.00 - 9.30").isSome ↔
        "8.00 - 9.30" ∈ c9ws.order)) ∧
    (c9fws.order = weekOne.order ∧ c9fws.data.length = weekOne.data.length ∧
      ((alookup (c9fws.data.getD 0 []) "8.00 - 9.30").isSome ↔
        "8.00 - 9.30" ∈ c9fws.order)) := by
  have h1 := c9_invariant_holds.1 c9rows c9ws (by decide)
  have h2 := c9_invariant_holds.2 weekOne ["CS"] [] c9fws (by decide)
  have hm1 : c9ws.data.getD 0 [] ∈ c9ws.data := by decide
  have hm2 : c9fws.data.getD 0 [] ∈ c9fws.data := by decide
  exact ⟨⟨h1.1, h1.2 _ hm1 _⟩, ⟨h2.1, h2.2.1, h2.2.2 _ hm2 _⟩⟩

/-! ### Claim C6 -/

theorem alookup_mem {α : Type} (m : List (String × α)) (t : String) (v : α)
    (h : alookup m t = some v) : (t, v) ∈ m := by
  induction m with
  | nil => cases h
  | cons p rest ih =>
    obtain ⟨k', v'⟩ := p
    by_cases hk : k' = t
    · subst hk
      simp only [alookup, if_pos rfl] at h
      cases h
      exact List.mem_cons_self _ _
    · simp only [alookup, if_neg hk] at h
      exact List.mem_cons_of_mem _ (ih h)

theorem filterLecture_all (acc : List Lecture) (lec : Lecture)
    (hseg : (pySplit lec.room "-").get? 1 ≠ none) :
    filterLecture ["ALL"] [] acc lec = .ok (acc ++ [lec]) := by
  obtain ⟨seg, hs⟩ := Option.ne_none_iff_exists'.mp hseg
  by_cases hm : pyUpper lec.short ∈ (["ALL"] : List String)
  · simp only [filterLecture, if_pos hm, epure_bind, if_true, hs]
    simp [List.not_mem_nil]
    rfl
  · simp only [filterLecture, if_neg hm, epure_bind, hs]
    simp [List.not_mem_nil]
    rfl

theorem filterBucket_all (lecs : List Lecture)
    (hr : ∀ lec ∈ lecs, (pySplit lec.room "-").get? 1 ≠ none) :
    ∀ acc, filterBucket ["ALL"] [] acc lecs = .ok (acc ++ lecs) := by
  induction lecs with
  | nil => intro acc; simp [filterBucket]
  | cons lec rest ih =>
    intro acc
    simp only [filterBucket, filterLecture_all acc lec (hr lec (by simp)), ebind_ok]
    rw [ih (fun l hl => hr l (List.mem_cons_of_mem _ hl))]
    simp

theorem filterDay_all (day : DayMap) (slots : List String)
    (hk : ∀ t ∈ slots, (alookup day t).isSome)
    (hr : ∀ t ∈ slots, ∀ lec ∈ alookupD day t, (pySplit lec.room "-").get? 1 ≠ none) :
    ∀ filtered, ∃ out, filterDay ["ALL"] [] day filtered slots = .ok out ∧
      ∀ t, alookup out t =
        if t ∈ slots then some (alookupD day t) else alookup filtered t := by
  induction slots with
  | nil =>
    intro filtered
    exact ⟨filtered, rfl, by simp⟩
  | cons time rest ih =>
    intro filtered
    obtain ⟨b, hb⟩ := Option.isSome_iff_exists.mp (hk time (by simp))
    have hbD : alookupD day time = b := by simp [alookupD, hb]
    obtain ⟨out, hout, hlook⟩ := ih (fun t ht => hk t (List.mem_cons_of_mem _ ht))
      (fun t ht => hr t (List.mem_cons_of_mem _ ht)) (asetKey filtered time b)
    refine ⟨out, ?_, ?_⟩
    · simp only [filterDay, hb, eOfOption_some, ebind_ok]
      rw [filterBucket_all b (by rw [← hbD]; exact hr time (by simp)) [], ebind_ok]
      exact hout
    · intro t
      rw [hlook t]
      by_cases htr : t ∈ rest
      · simp [htr]
      · by_cases htt : t = time
        · subst htt
          simp [htr, alookup_asetKey_self, hbD]
        · simp [htr, htt, alookup_asetKey_other _ _ _ _ htt]

theorem c6_mapM_all (order : List String) :
    ∀ (days : List DayMap),
      (∀ day ∈ days,
        (∀ t ∈ order, (alookup day t).isSome) ∧
        (∀ p ∈ day, p.1 ∈ order) ∧
        (∀ t ∈ order, ∀ lec ∈ alookupD day t, (pySplit lec.room "-").get? 1 ≠ none)) →
      ∃ nd, days.mapM (fun day => filterDay ["ALL"] [] day [] order) = .ok nd ∧
        nd.length = days.length ∧
        ∀ i dIn dOut, days.get? i = some dIn → nd.get? i = some dOut →
          ∀ t, alookup dOut t = alookup dIn t := by
  intro days
  induction days with
  | nil =>
    intro _
    refine ⟨[], rfl, rfl, ?_⟩
    intro i dIn dOut h
    cases h
  | cons day rest ih =>
    intro hall
    obtain ⟨hk, hx, hr⟩ := hall day (by simp)
    obtain ⟨out, hout, hlook⟩ := filterDay_all day order hk hr []
    obtain ⟨nd, hnd, hlen, hpt⟩ := ih (fun d hd => hall d (List.mem_cons_of_mem _ hd))
    refine ⟨out :: nd, ?_, by simp [hlen], ?_⟩
    · rw [List.mapM_cons, hout, ebind_ok, hnd, ebind_ok]
      rfl
    · intro i dIn dOut hIn hOut t
      cases i with
      | zero =>
        simp only [List.get?_cons_zero, Option.some.injEq] at hIn hOut
        subst hIn
        subst hOut
        rw [hlook t]
        by_cases ht : t ∈ order
        · obtain ⟨b, hb⟩ := Option.isSome_iff_exists.mp (hk t ht)
          simp [ht, alookupD, hb]
        · have hnone : alookup day t = none := by
            cases hn : alookup day t with
            | none => rfl
            | some v => exact absurd (hx _ (alookup_mem _ _ _ hn)) ht
          simp [ht, hnone, alookup]
      | succ j =>
        simp only [List.get?_cons_succ] at hIn hOut
        exact hpt j dIn dOut hIn hOut t

/-- C6, corrected: on a weekly schedule that satisfies the data-model
invariant **and** whose records all have a room containing at least one
`'-'`, `filterLectures` with allow-list `["ALL"]` and empty deny-list
succeeds and is the identity on `data` contents (every weekday map has
pointwise-equal slot bindings, `order` and `week` are kept).  Without
the extra room proviso the transform can abort instead (see the
counterexample). -/
theorem c6_all_identity_amended (ws : WeeklySchedule)
    (hk : ∀ dm ∈ ws.data, ∀ t ∈ ws.order, (alookup dm t).isSome)
    (hx : ∀ dm ∈ ws.data, ∀ p ∈ dm, p.1 ∈ ws.order)
    (hr : ∀ dm ∈ ws.data, ∀ t ∈ ws.order, ∀ lec ∈ alookupD dm t,
      (pySplit lec.room "-").get? 1 ≠ none) :
    (∀ e, filterLectures ws ["ALL"] [] ≠ .error e) ∧
    (∀ ws', filterLectures ws ["ALL"] [] = .ok ws' →
      ws'.order = ws.order ∧ ws'.week = ws.week ∧
      ws'.data.length = ws.data.length ∧
      ∀ i dmIn dmOut, ws.data.get? i = some dmIn → ws'.data.get? i = some dmOut →
        ∀ t, alookup dmOut t = alookup dmIn t) := by
  obtain ⟨nd, hnd, hlen, hpt⟩ := c6_mapM_all ws.order ws.data
    (fun dm hdm => ⟨hk dm hdm, hx dm hdm, hr dm hdm⟩)
  have hU : (["ALL"] : List String).map pyUpper = ["ALL"] := by decide
  have hrun : filterLectures ws ["ALL"] [] =
      .ok { order := ws.order, data := nd, week := ws.week } := by
    simp only [filterLectures, hU, List.map_nil, hnd, ebind_ok]
    rfl
  constructor
  · intro e hc
    rw [hrun] at hc
    cases hc
  · intro ws' h
    rw [hrun] at h
    cases h
    exact ⟨rfl, rfl, hlen, hpt⟩

/-- C6, counterexample to the claim as stated: `wsNoHyphen` satisfies
the data-model invariant (five weekday maps, keys exactly the slots of
`order`), yet `filterLectures` with `["ALL"]` and an empty deny-list
aborts with an `IndexError` instead of acting as the identity, because
one record's room contains no `'-'`. -/
theorem c6_counterexample :
    wsNoHyphen.data.length = 5 ∧
    (wsNoHyphen.data.all (fun dm =>
      dm.all (fun p => decide (p.1 ∈ wsNoHyphen.order)) &&
      wsNoHyphen.order.all (fun t => (alookup dm t).isSome)) = true) ∧
    filterLectures wsNoHyphen ["ALL"] [] =
      .error (.indexError "list index out of range") := by
  refine ⟨?_, ?_, ?_⟩
  · decide
  · decide
  · decide

/-- The schedule the amended C6 produces from `weekOne`. -/
def c6fws : WeeklySchedule :=
  (filterLectures weekOne ["ALL"] []).toOption.getD
    { order := [], data := [], week := none }

/-- Witness for the amended C6 at a concrete invariant-satisfying
schedule whose rooms all contain `'-'`. -/
theorem c6_all_identity_amended_witness :
    filterLectures weekOne ["ALL"] [] ≠
      .error (.indexError "list index out of range") ∧
    (c6fws.order = weekOne.order ∧
      alookup (c6fws.data.getD 0 []) "8.00 - 9.30" =
        alookup (weekOne.data.getD 0 []) "8.00 - 9.30") := by
  have h := c6_all_identity_amended weekOne (by decide) (by decide) (by decide)
  refine ⟨h.1 _, ?_⟩
  have h2 := h.2 c6fws (by decide)
  refine ⟨h2.1, ?_⟩
  exact h2.2.2.2 0 _ _ (by decide) (by decide) "8.00 - 9.30"

/-! ### Claim C7 -/

/-- Whether an exception is the `CannotParseTime` class. -/
def isCPT : PyError → Bool
  | .cannotParseTime _ => true
  | _ => false

theorem beginDateUpd_not_cpt (lbl : Option String) (y : Nat) (cur : Option Int)
    (e : PyError) (h : beginDateUpd lbl y cur = .error e) : isCPT e = false := by
  cases cur with
  | some d => cases h
  | none =>
    cases lbl with
    | none => cases h; rfl
    | some s =>
      simp only [beginDateUpd] at h
      cases hp : parseCalweek s with
      | none => rw [hp] at h; cases h; rfl
      | some n => rw [hp] at h; cases h

theorem makeEvent_not_cpt (times : Times) (sources : List String) (dayDate : Int)
    (time : String) (entry : Lecture) (e : PyError)
    (h : makeEvent times sources dayDate time entry = .error e) : isCPT e = false := by
  simp only [makeEvent] at h
  cases ht : alookup times time with
  | none => rw [ht, eOfOption_none, ebind_err] at h; cases h; rfl
  | some p =>
    rw [ht, eOfOption_some, ebind_ok] at h
    cases hc : entry.typ.data.head? with
    | none => rw [hc, eOfOption_none, ebind_err] at h; cases h; rfl
    | some c =>
      rw [hc, eOfOption_some, ebind_ok] at h
      cases hs : entry.source with
      | none => rw [hs, eOfOption_none, ebind_err] at h; cases h; rfl
      | some i =>
        rw [hs, eOfOption_some, ebind_ok] at h
        cases hh : sources.get? i with
        | none => rw [hh, eOfOption_none, ebind_err] at h; cases h; rfl
        | some hd =>
          rw [hh, eOfOption_some, ebind_ok] at h
          cases hl : (match roomMatch entry.room with
            | some (g1, g2) => (some (pyStrip g1), g2)
            | none => (none, entry.room)).1 with
          | none => rw [hl, eOfOption_none, ebind_err] at h; cases h; rfl
          | some l => rw [hl, eOfOption_some, ebind_ok] at h; cases h

theorem entriesLoop_not_cpt (times : Times) (sources : List String) (dayDate : Int)
    (time : String) (entries : List Lecture) :
    ∀ (acc : List IcalEvent) (e : PyError),
      entriesLoop times sources dayDate time acc entries = .error e →
      isCPT e = false := by
  induction entries with
  | nil => intro acc e h; cases h
  | cons entry rest ih =>
    intro acc e h
    simp only [entriesLoop] at h
    cases hm : makeEvent times sources dayDate time entry with
    | error e' =>
      rw [hm, ebind_err] at h
      cases h
      exact makeEvent_not_cpt _ _ _ _ _ _ hm
    | ok ev =>
      rw [hm, ebind_ok] at h
      exact ih _ _ h

theorem slotsLoop_not_cpt (times : Times) (sources : List String) (dayDate : Int)
    (dayData : DayMap) :
    ∀ (acc : List IcalEvent) (e : PyError),
      slotsLoop times sources dayDate acc dayData = .error e → isCPT e = false := by
  induction dayData with
  | nil => intro acc e h; cases h
  | cons p rest ih =>
    intro acc e h
    obtain ⟨time, entries⟩ := p
    simp only [slotsLoop] at h
    cases he : entriesLoop times sources dayDate time acc entries with
    | error e' =>
      rw [he, ebind_err] at h
      cases h
      exact entriesLoop_not_cpt _ _ _ _ _ _ _ he
    | ok acc' =>
      rw [he, ebind_ok] at h
      exact ih _ _ h

theorem daysLoop_not_cpt (times : Times) (sources : List String) (beginDate : Int)
    (week : WeeklySchedule) (days : List Nat) :
    ∀ (acc : List IcalEvent) (e : PyError),
      daysLoop times sources beginDate week acc days = .error e →
      isCPT e = false := by
  induction days with
  | nil => intro acc e h; cases h
  | cons day rest ih =>
    intro acc e h
    simp only [daysLoop] at h
    cases hd : week.data.get? day with
    | none => rw [hd, eOfOption_none, ebind_err] at h; cases h; rfl
    | some dayData =>
      rw [hd, eOfOption_some, ebind_ok] at h
      cases hs : slotsLoop times sources (beginDate + (day : Int)) acc dayData with
      | error e' =>
        rw [hs, ebind_err] at h
        cases h
        exact slotsLoop_not_cpt _ _ _ _ _ _ hs
      | ok acc' =>
        rw [hs, ebind_ok] at h
        exact ih _ _ h

theorem timesLoop_first_bad (order : List String) :
    ∀ (init : Times) (t0 : String),
      order.find? (fun t => (parseTimeSlot t).isNone) = some t0 →
      timesLoop init order = .error (.cannotParseTime ("String was: " ++ t0)) := by
  induction order with
  | nil => intro init t0 h; cases h
  | cons t rest ih =>
    intro init t0 h
    cases hp : parseTimeSlot t with
    | none =>
      rw [List.find?_cons_of_pos _ (by simp [hp])] at h
      cases h
      simp only [timesLoop, hp]
    | some p =>
      rw [List.find?_cons_of_neg _ (by simp [hp])] at h
      simp only [timesLoop, hp]
      exact ih _ _ h

/-- C7: `make_ical` raises `CannotParseTime` naming the offending slot
string exactly when some slot key of the **first** week's `order` fails
the `H.MM - H.MM` regex (the first failing key, in order, is named);
when every key of the first week's `order` parses, no `CannotParseTime`
is ever raised — for any remaining weeks whatsoever, since the parsed
table is computed once from `data[0]['order']` and reused. -/
theorem c7_time_slot_errors (w : WeeklySchedule) (rest : List WeeklySchedule)
    (sources : List String) (nowYear : Nat) :
    (∀ t0, w.order.find? (fun t => (parseTimeSlot t).isNone) = some t0 →
      make_ical (w :: rest) sources nowYear =
        .error (.cannotParseTime ("String was: " ++ t0))) ∧
    ((∀ t ∈ w.order, (parseTimeSlot t).isSome) →
      ∀ msg, make_ical (w :: rest) sources nowYear ≠
        .error (.cannotParseTime msg)) := by
  have hstep : make_ical (w :: rest) sources nowYear =
      (timesLoop [] w.order >>= fun times =>
        beginDateUpd w.week nowYear none >>= fun beginDate =>
          daysLoop times sources beginDate w [] [0, 1, 2, 3, 4]) := rfl
  constructor
  · intro t0 h
    rw [hstep, timesLoop_first_bad w.order [] t0 h, ebind_err]
  · intro hall msg
    obtain ⟨tm, htm⟩ := timesLoop_ok [] w.order hall
    rw [hstep, htm, ebind_ok]
    cases hb : beginDateUpd w.week nowYear none with
    | error e =>
      rw [ebind_err]
      intro hc
      cases hc
      have := beginDateUpd_not_cpt _ _ _ _ hb
      simp [isCPT] at this
    | ok d =>
      rw [ebind_ok]
      intro hc
      have := daysLoop_not_cpt tm sources d w [0, 1, 2, 3, 4] [] _ hc
      simp [isCPT] at this

/-- Witness for C7 at concrete inputs: a malformed first slot key is
named in the error; a well-formed order never yields `CannotParseTime`. -/
theorem c7_time_slot_errors_witness :
    make_ical [{ weekOne with order := ["8:00 - 9:30"] }] ["Headline 1"] 2024 =
      .error (.cannotParseTime "String was: 8:00 - 9:30") ∧
    make_ical [weekOne] ["Headline 1"] 2024 ≠
      .error (.cannotParseTime "String was: 8.00 - 9.30") := by
  constructor
  · exact (c7_time_slot_errors { weekOne with order := ["8:00 - 9:30"] } []
      ["Headline 1"] 2024).1 "8:00 - 9:30" (by decide)
  · exact (c7_time_slot_errors weekOne [] ["Headline 1"] 2024).2 (by decide) _

/-! ### Claim C4 -/

/-- Tag a lecture with its source index (`lecture['source'] = idx`,
line 244). -/
def tagSource (idx : Nat) (l : Lecture) : Lecture := { l with source := some idx }

/-- Reference fold for the claim: append records in order, dropping a
record exactly when its room is already present among those collected. -/
def dedupByRoom (bucket : List Lecture) : List Lecture → List Lecture
  | [] => bucket
  | l :: rest =>
    dedupByRoom (if l.room ∈ bucket.map (fun lx => lx.room) then bucket
                 else bucket ++ [l]) rest

/-- All sources' records for weekday `x` and slot `t`, concatenated in
source order, each tagged with its source index (indices starting at
`idx`). -/
def taggedFrom (x : Nat) (t : String) (idx : Nat) :
    List WeeklySchedule → List Lecture
  | [] => []
  | w :: rest =>
    (alookupD (w.data.getD x []) t).map (tagSource idx) ++
      taggedFrom x t (idx + 1) rest

/-- Boolean room comparison used for filtering and searching. -/
def roomEq (r : String) (lec : Lecture) : Bool := decide (lec.room = r)

theorem tagSource_room (idx : Nat) (l : Lecture) :
    (tagSource idx l).room = l.room := rfl

theorem mergeSlot_eq_dedup (idx : Nat) (lecs : List Lecture) :
    ∀ bucket, mergeSlot bucket idx lecs =
      dedupByRoom bucket (lecs.map (tagSource idx)) := by
  induction lecs with
  | nil => intro bucket; rfl
  | cons l rest ih =>
    intro bucket
    show mergeSlot (mergeSlotStep bucket idx l) idx rest = _
    rw [ih]
    simp only [List.map_cons, dedupByRoom, mergeSlotStep, tagSource_room]
    rfl

theorem alookup_eq_none_of_not_mem_keys {α : Type} (m : List (String × α))
    (t : String) (h : t ∉ m.map Prod.fst) : alookup m t = none := by
  induction m with
  | nil => rfl
  | cons p rest ih =>
    obtain ⟨k, v⟩ := p
    simp only [List.map_cons, List.mem_cons] at h
    push_neg at h
    have hne : ¬ k = t := fun hc => h.1 hc.symm
    simp only [alookup, if_neg hne]
    exact ih h.2

theorem mergeDay_lookup (idx : Nat) (src : DayMap)
    (hnd : (src.map Prod.fst).Nodup) :
    ∀ acc t, alookupD (mergeDay acc idx src) t =
      mergeSlot (alookupD acc t) idx (alookupD src t) := by
  induction src with
  | nil => intro acc t; rfl
  | cons p rest ih =>
    intro acc t
    obtain ⟨k, v⟩ := p
    simp only [List.map_cons, List.nodup_cons] at hnd
    have step : mergeDay acc idx ((k, v) :: rest) =
        mergeDay (asetKey acc k (mergeSlot (alookupD acc k) idx v)) idx rest := rfl
    rw [step, ih hnd.2]
    by_cases ht : t = k
    · subst ht
      have ha : alookupD (asetKey acc t (mergeSlot (alookupD acc t) idx v)) t =
          mergeSlot (alookupD acc t) idx v := by
        simp [alookupD, alookup_asetKey_self]
      have hb : alookupD rest t = [] := by
        simp [alookupD, alookup_eq_none_of_not_mem_keys rest t hnd.1]
      have hc2 : alookupD ((t, v) :: rest) t = v := by
        simp [alookupD, alookup]
      rw [ha, hb, hc2]
      rfl
    · have h1 : alookupD (asetKey acc k (mergeSlot (alookupD acc k) idx v)) t =
          alookupD acc t := by
        simp [alookupD, alookup_asetKey_other _ _ _ _ ht]
      have hne : ¬ k = t := fun hc => ht hc.symm
      have h2 : alookupD ((k, v) :: rest) t = alookupD rest t := by
        simp only [alookupD, alookup, if_neg hne]
      rw [h1, h2]

theorem dedupByRoom_append (l1 l2 : List Lecture) :
    ∀ bucket, dedupByRoom bucket (l1 ++ l2) =
      dedupByRoom (dedupByRoom bucket l1) l2 := by
  induction l1 with
  | nil => intro bucket; rfl
  | cons l rest ih =>
    intro bucket
    simp only [List.cons_append, dedupByRoom]
    exact ih _

theorem range5_map_getD {α : Type} (f : Nat → α) (x : Nat) (hx : x < 5) (d : α) :
    ((List.range 5).map f).getD x d = f x := by
  rw [List.getD_eq_getElem?_getD, List.getElem?_map, List.getElem?_range hx]
  rfl

theorem joinLoop_lookup (x : Nat) (hx : x < 5) (t : String) :
    ∀ (ss : List WeeklySchedule) (idx : Nat) (days : List DayMap),
      days.length = 5 →
      (∀ w ∈ ss, ∀ dm ∈ w.data, (dm.map Prod.fst).Nodup) →
      alookupD ((joinLoop days idx ss).getD x []) t =
        dedupByRoom (alookupD (days.getD x []) t) (taggedFrom x t idx ss) := by
  intro ss
  induction ss with
  | nil => intro idx days _ _; rfl
  | cons w rest ih =>
    intro idx days hlen hnd
    show alookupD ((joinLoop (mergeSource days idx w) (idx + 1) rest).getD x []) t = _
    rw [ih (idx + 1) _ (by simp [mergeSource])
      (fun w' hw' => hnd w' (List.mem_cons_of_mem _ hw'))]
    have hsrc : (mergeSource days idx w).getD x [] =
        mergeDay (days.getD x []) idx (w.data.getD x []) := by
      simp only [mergeSource]
      exact range5_map_getD _ x hx []
    have hndw : ((w.data.getD x []).map Prod.fst).Nodup := by
      rcases Nat.lt_or_ge x w.data.length with hxl | hxl
      · have : w.data.getD x [] ∈ w.data := by
          rw [List.getD_eq_getElem _ _ hxl]
          exact List.getElem_mem _
        exact hnd w (List.mem_cons_self _ _) _ this
      · rw [List.getD_eq_default _ _ hxl]
        simp
    rw [hsrc, mergeDay_lookup idx _ hndw, mergeSlot_eq_dedup,
      ← dedupByRoom_append]
    rfl

theorem find?_append_some {α : Type} (p : α → Bool) (l1 l2 : List α) (a : α)
    (h : l1.find? p = some a) : (l1 ++ l2).find? p = some a := by
  induction l1 with
  | nil => cases h
  | cons x rest ih =>
    by_cases hp : p x = true
    · rw [List.find?_cons_of_pos _ hp] at h
      rw [List.cons_append, List.find?_cons_of_pos _ hp]
      exact h
    · rw [List.find?_cons_of_neg _ hp] at h
      rw [List.cons_append, List.find?_cons_of_neg _ hp]
      exact ih h

theorem find?_append_none {α : Type} (p : α → Bool) (l1 l2 : List α)
    (h : l1.find? p = none) : (l1 ++ l2).find? p = l2.find? p := by
  induction l1 with
  | nil => rfl
  | cons x rest ih =>
    by_cases hp : p x = true
    · rw [List.find?_cons_of_pos _ hp] at h
      cases h
    · rw [List.find?_cons_of_neg _ hp] at h
      rw [List.cons_append, List.find?_cons_of_neg _ hp]
      exact ih h

theorem dedupByRoom_filter (r : String) :
    ∀ (l bucket : List Lecture),
      (dedupByRoom bucket l).filter (roomEq r) =
        bucket.filter (roomEq r) ++
          (if r ∈ bucket.map (fun lx => lx.room) then []
           else ((l.find? (roomEq r)).toList)) := by
  intro l
  induction l with
  | nil =>
    intro bucket
    by_cases hr : r ∈ bucket.map (fun lx => lx.room)
    · simp [dedupByRoom, hr]
    · simp [dedupByRoom, hr]
  | cons lec rest ih =>
    intro bucket
    simp only [dedupByRoom]
    by_cases hmem : lec.room ∈ bucket.map (fun lx => lx.room)
    · rw [if_pos hmem, ih bucket]
      by_cases hr : r ∈ bucket.map (fun lx => lx.room)
      · simp [hr]
      · have hne : ¬ roomEq r lec = true := by
          simp only [roomEq, decide_eq_true_eq]
          intro hc
          rw [hc] at hmem
          exact hr hmem
        rw [if_neg hr, if_neg hr, List.find?_cons_of_neg _ hne]
    · rw [if_neg hmem, ih (bucket ++ [lec]), List.filter_append]
      by_cases hlr : lec.room = r
      · have hr : r ∉ bucket.map (fun lx => lx.room) := by
          rw [← hlr]
          exact hmem
        have hpos : roomEq r lec = true := by simp [roomEq, hlr]
        have hmem' : r ∈ (bucket ++ [lec]).map (fun lx => lx.room) := by
          rw [List.map_append, List.mem_append]
          right
          simp [hlr]
        rw [if_pos hmem', if_neg hr, List.find?_cons_of_pos _ hpos]
        simp [hpos]
      · have hne : ¬ roomEq r lec = true := by
          simp only [roomEq, decide_eq_true_eq]
          intro hc
          exact hlr hc
        have hmemiff : r ∈ (bucket ++ [lec]).map (fun lx => lx.room) ↔
            r ∈ bucket.map (fun lx => lx.room) := by
          rw [List.map_append, List.mem_append]
          constructor
          · rintro (h | h)
            · exact h
            · exfalso
              simp only [List.map_cons, List.map_nil, List.mem_singleton] at h
              exact hlr h.symm
          · exact Or.inl
        have hfe : List.filter (roomEq r) [lec] = [] := by
          simp [List.filter, hne]
        rw [hfe, List.append_nil, List.find?_cons_of_neg _ hne]
        by_cases hr : r ∈ bucket.map (fun lx => lx.room)
        · rw [if_pos hr, if_pos (hmemiff.mpr hr)]
        · rw [if_neg hr, if_neg (fun hc => hr (hmemiff.mp hc))]

theorem taggedFrom_find (x : Nat) (t : String) (r : String) :
    ∀ (ss : List WeeklySchedule) (idx : Nat) (rec : Lecture),
      (taggedFrom x t idx ss).find? (roomEq r) = some rec →
      ∃ k w, ss.get? k = some w ∧
        (∃ orig, orig ∈ alookupD (w.data.getD x []) t ∧
          rec = tagSource (idx + k) orig) ∧
        ∀ j w', j < k → ss.get? j = some w' →
          r ∉ (alookupD (w'.data.getD x []) t).map (fun lx => lx.room) := by
  intro ss
  induction ss with
  | nil => intro idx rec h; cases h
  | cons w rest ih =>
    intro idx rec h
    simp only [taggedFrom] at h
    cases hf : ((alookupD (w.data.getD x []) t).map (tagSource idx)).find? (roomEq r) with
    | some rec0 =>
      rw [find?_append_some _ _ _ _ hf] at h
      cases h
      have hmem0 := List.mem_of_find?_eq_some hf
      obtain ⟨orig, horig, heq⟩ := List.mem_map.mp hmem0
      refine ⟨0, w, rfl, ⟨orig, horig, ?_⟩, ?_⟩
      · rw [Nat.add_zero]
        exact heq.symm
      · intro j w' hj
        cases hj
    | none =>
      rw [find?_append_none _ _ _ hf] at h
      obtain ⟨k', w', hk', ⟨orig, horig, heq⟩, hmin⟩ := ih (idx + 1) rec h
      refine ⟨k' + 1, w', hk', ⟨orig, horig, ?_⟩, ?_⟩
      · rw [heq]
        congr 1
        omega
      · intro j w'' hj hget
        cases j with
        | zero =>
          simp only [List.get?_cons_zero, Option.some.injEq] at hget
          subst hget
          intro hcontra
          obtain ⟨o, ho, hor⟩ := List.mem_map.mp hcontra
          have hmm : tagSource idx o ∈
              (alookupD (w.data.getD x []) t).map (tagSource idx) :=
            List.mem_map.mpr ⟨o, ho, rfl⟩
          have := List.find?_eq_none.mp hf _ hmm
          simp [roomEq, tagSource_room, hor] at this
        | succ j' =>
          simp only [List.get?_cons_succ] at hget
          exact hmin j' w'' (by omega) hget

/-- C4: for every weekday `x < 5` and slot `t` of a successful merge
(weekday dicts of the inputs have distinct keys, as Python dicts do),
the merged bucket is exactly the source-order concatenation of all
sources' records for that slot, tagged with their source index, folded
by "append unless the room is already present" (conjunct 1); hence for
any room value the surviving records are exactly the first occurrence
in source order — one record when the room occurs at all, none
otherwise (conjunct 2); and every emitted record is some source's
record tagged with that source's index, no earlier source holding its
room (conjunct 3). -/
theorem c4_join_dedup (dl : List WeeklySchedule) (out : WeeklySchedule)
    (hjoin : joinTables dl = some out)
    (hnodup : ∀ w ∈ dl, ∀ dm ∈ w.data, (dm.map Prod.fst).Nodup) :
    ∀ x, x < 5 → ∀ t,
      (alookupD (out.data.getD x []) t = dedupByRoom [] (taggedFrom x t 0 dl)) ∧
      (∀ r, (alookupD (out.data.getD x []) t).filter (roomEq r) =
        ((taggedFrom x t 0 dl).find? (roomEq r)).toList) ∧
      (∀ rec, rec ∈ alookupD (out.data.getD x []) t → ∃ i w orig,
        dl.get? i = some w ∧ orig ∈ alookupD (w.data.getD x []) t ∧
        rec = tagSource i orig ∧
        ∀ j w', j < i → dl.get? j = some w' →
          rec.room ∉ (alookupD (w'.data.getD x []) t).map (fun lx => lx.room)) := by
  intro x hx t
  have hchar : alookupD (out.data.getD x []) t =
      dedupByRoom [] (taggedFrom x t 0 dl) := by
    cases dl with
    | nil => cases hjoin
    | cons first rest =>
      simp only [joinTables, Option.some.injEq] at hjoin
      subst hjoin
      simp only
      rw [joinLoop_lookup x hx t (first :: rest) 0 (List.replicate 5 [])
        (by simp) hnodup]
      congr 1
      have : (List.replicate 5 ([] : DayMap)).getD x [] = [] := by
        rw [List.getD_eq_getElem?_getD, List.getElem?_replicate]
        simp [hx]
      rw [this]
      rfl
  have hfilter : ∀ r, (alookupD (out.data.getD x []) t).filter (roomEq r) =
      ((taggedFrom x t 0 dl).find? (roomEq r)).toList := by
    intro r
    rw [hchar, dedupByRoom_filter]
    simp
  refine ⟨hchar, hfilter, ?_⟩
  intro rec hrec
  have hrecf : rec ∈ (alookupD (out.data.getD x []) t).filter (roomEq rec.room) :=
    List.mem_filter.mpr ⟨hrec, by simp [roomEq]⟩
  rw [hfilter rec.room] at hrecf
  cases hfind : (taggedFrom x t 0 dl).find? (roomEq rec.room) with
  | none => rw [hfind] at hrecf; cases hrecf
  | some rec' =>
    rw [hfind] at hrecf
    have : rec = rec' := by
      simpa [Option.toList] using hrecf
    subst this
    obtain ⟨k, w, hk, ⟨orig, horig, heq⟩, hmin⟩ :=
      taggedFrom_find x t rec.room dl 0 rec hfind
    refine ⟨k, w, orig, hk, horig, by simpa using heq, ?_⟩
    intro j w' hj hget
    exact hmin j w' hj hget

/-- An untagged record, as the table normalizer yields it. -/
def lecCSun : Lecture :=
  { short := "CS", typ := "V", name := "Compilers", room := "R1.10 - Hollas" }

/-- A second source's record occupying the same room in the same slot. -/
def lecMathUn : Lecture :=
  { short := "Mathe", typ := "Ü", name := "Mathe", room := "R1.10 - Hollas" }

/-- Source 0 for the merge witness. -/
def srcA : WeeklySchedule :=
  { order := ["8.00 - 9.30"],
    data := [[("8.00 - 9.30", [lecCSun])],
             emptySlot, emptySlot, emptySlot, emptySlot],
    week := some "41. KW" }

/-- Source 1 for the merge witness: same room in the same slot/day. -/
def srcB : WeeklySchedule :=
  { order := ["8.00 - 9.30"],
    data := [[("8.00 - 9.30", [lecMathUn])],
             emptySlot, emptySlot, emptySlot, emptySlot],
    week := some "41. KW" }

/-- The merge of the two overlapping sources. -/
def c4out : WeeklySchedule :=
  (joinTables [srcA, srcB]).getD { order := [], data := [], week := none }

/-- Witness for C4: with the same room in both sources, exactly one
record survives — the first source's, tagged 0. -/
theorem c4_join_dedup_witness :
    (alookupD (c4out.data.getD 0 []) "8.00 - 9.30").filter
        (roomEq "R1.10 - Hollas") =
      ((taggedFrom 0 "8.00 - 9.30" 0 [srcA, srcB]).find?
        (roomEq "R1.10 - Hollas")).toList ∧
    alookupD (c4out.data.getD 0 []) "8.00 - 9.30" = [tagSource 0 lecCSun] := by
  constructor
  · exact (c4_join_dedup [srcA, srcB] c4out (by decide) (by decide) 0 (by decide)
      "8.00 - 9.30").2.1 "R1.10 - Hollas"
  · decide

/-! ### Claims C5 and C10 -/

/-- The uid contract of one event: a location was set, and the uid is
the name-based UUID of the location string and the start timestamp. -/
def uidOk (ev : IcalEvent) : Prop :=
  ev.location.isSome = true ∧
  ev.uid = uuid3 NAMESPACE_DNS (ev.location.getD "" ++ " " ++ pyDateTimeStr ev.dtstart)

instance (ev : IcalEvent) : Decidable (uidOk ev) := by
  unfold uidOk
  infer_instance

theorem makeEvent_uid (times : Times) (sources : List String) (dayDate : Int)
    (time : String) (entry : Lecture) (ev : IcalEvent)
    (h : makeEvent times sources dayDate time entry = .ok ev) : uidOk ev := by
  simp only [makeEvent] at h
  cases ht : alookup times time with
  | none => rw [ht, eOfOption_none, ebind_err] at h; cases h
  | some p =>
    rw [ht, eOfOption_some, ebind_ok] at h
    cases hc : entry.typ.data.head? with
    | none => rw [hc, eOfOption_none, ebind_err] at h; cases h
    | some c =>
      rw [hc, eOfOption_some, ebind_ok] at h
      cases hs : entry.source with
      | none => rw [hs, eOfOption_none, ebind_err] at h; cases h
      | some i =>
        rw [hs, eOfOption_some, ebind_ok] at h
        cases hh : sources.get? i with
        | none => rw [hh, eOfOption_none, ebind_err] at h; cases h
        | some hd =>
          rw [hh, eOfOption_some, ebind_ok] at h
          cases hrm : roomMatch entry.room with
          | none =>
            simp only [hrm, eOfOption_none, ebind_err] at h
            cases h
          | some g =>
            obtain ⟨g1, g2⟩ := g
            simp only [hrm, eOfOption_some, ebind_ok] at h
            cases h
            exact ⟨rfl, rfl⟩

theorem makeEvent_room (times : Times) (sources : List String) (dayDate : Int)
    (time : String) (entry : Lecture) (ev : IcalEvent)
    (h : makeEvent times sources dayDate time entry = .ok ev) :
    (roomMatch entry.room).isSome = true := by
  simp only [makeEvent] at h
  cases ht : alookup times time with
  | none => rw [ht, eOfOption_none, ebind_err] at h; cases h
  | some p =>
    rw [ht, eOfOption_some, ebind_ok] at h
    cases hc : entry.typ.data.head? with
    | none => rw [hc, eOfOption_none, ebind_err] at h; cases h
    | some c =>
      rw [hc, eOfOption_some, ebind_ok] at h
      cases hs : entry.source with
      | none => rw [hs, eOfOption_none, ebind_err] at h; cases h
      | some i =>
        rw [hs, eOfOption_some, ebind_ok] at h
        cases hh : sources.get? i with
        | none => rw [hh, eOfOption_none, ebind_err] at h; cases h
        | some hd =>
          rw [hh, eOfOption_some, ebind_ok] at h
          cases hrm : roomMatch entry.room with
          | none =>
            simp only [hrm, eOfOption_none, ebind_err] at h
            cases h
          | some g => rfl

theorem entriesLoop_uid (times : Times) (sources : List String) (dayDate : Int)
    (time : String) (entries : List Lecture) :
    ∀ acc res, entriesLoop times sources dayDate time acc entries = .ok res →
      (∀ ev ∈ acc, uidOk ev) → ∀ ev ∈ res, uidOk ev := by
  induction entries with
  | nil =>
    intro acc res h hacc
    cases h
    exact hacc
  | cons entry rest ih =>
    intro acc res h hacc
    simp only [entriesLoop] at h
    cases hm : makeEvent times sources dayDate time entry with
    | error e => rw [hm, ebind_err] at h; cases h
    | ok ev0 =>
      rw [hm, ebind_ok] at h
      refine ih _ _ h ?_
      intro ev hev
      rcases List.mem_append.mp hev with hin | hin
      · exact hacc ev hin
      · rw [List.mem_singleton.mp hin]
        exact makeEvent_uid _ _ _ _ _ _ hm

theorem slotsLoop_uid (times : Times) (sources : List String) (dayDate : Int)
    (dayData : DayMap) :
    ∀ acc res, slotsLoop times sources dayDate acc dayData = .ok res →
      (∀ ev ∈ acc, uidOk ev) → ∀ ev ∈ res, uidOk ev := by
  induction dayData with
  | nil =>
    intro acc res h hacc
    cases h
    exact hacc
  | cons p rest ih =>
    intro acc res h hacc
    obtain ⟨time, entries⟩ := p
    simp only [slotsLoop] at h
    cases he : entriesLoop times sources dayDate time acc entries with
    | error e => rw [he, ebind_err] at h; cases h
    | ok acc' =>
      rw [he, ebind_ok] at h
      exact ih _ _ h (entriesLoop_uid _ _ _ _ _ _ _ he hacc)

theorem daysLoop_uid (times : Times) (sources : List String) (beginDate : Int)
    (week : WeeklySchedule) (days : List Nat) :
    ∀ acc res, daysLoop times sources beginDate week acc days = .ok res →
      (∀ ev ∈ acc, uidOk ev) → ∀ ev ∈ res, uidOk ev := by
  induction days with
  | nil =>
    intro acc res h hacc
    cases h
    exact hacc
  | cons day rest ih =>
    intro acc res h hacc
    simp only [daysLoop] at h
    cases hd : week.data.get? day with
    | none => rw [hd, eOfOption_none, ebind_err] at h; cases h
    | some dayData =>
      rw [hd, eOfOption_some, ebind_ok] at h
      cases hs : slotsLoop times sources (beginDate + (day : Int)) acc dayData with
      | error e => rw [hs, ebind_err] at h; cases h
      | ok acc' =>
        rw [hs, ebind_ok] at h
        exact ih _ _ h (slotsLoop_uid _ _ _ _ _ _ hs hacc)

/-- C5: the embedded export is a pure function of its input — two runs
with the same input and the same current date are identical — and every
event of a successful run carries a uid that is the name-based,
namespace-qualified (`uuid3` with `NAMESPACE_DNS`) derivation from the
concatenation of the event's computed location string and its computed
start timestamp. -/
theorem c5_uid_deterministic (data : List WeeklySchedule) (sources : List String)
    (nowYear : Nat) :
    make_ical data sources nowYear = make_ical data sources nowYear ∧
    (∀ evs, make_ical data sources nowYear = .ok evs →
      ∀ ev ∈ evs, uidOk ev) := by
  refine ⟨rfl, ?_⟩
  intro evs h
  simp only [make_ical] at h
  cases hw : data.head? with
  | none => rw [hw, eOfOption_none, ebind_err] at h; cases h
  | some w =>
    rw [hw, eOfOption_some, ebind_ok] at h
    cases htm : timesLoop [] w.order with
    | error e => rw [htm, ebind_err] at h; cases h
    | ok tm =>
      rw [htm, ebind_ok] at h
      cases hb : beginDateUpd w.week nowYear none with
      | error e => rw [hb, ebind_err] at h; cases h
      | ok d =>
        rw [hb, ebind_ok] at h
        exact daysLoop_uid _ _ _ _ _ _ _ h (by intro ev hev; cases hev)

/-- The events the calendar export produces from `weekOne`. -/
def c5events : List IcalEvent :=
  (make_ical [weekOne] ["Headline 1"] 2024).toOption.getD []

/-- The single event of `c5events`. -/
def c5ev : IcalEvent :=
  c5events.getD 0
    { dtstart := { ord := 0, hour := 0, minute := 0 },
      dtend := { ord := 0, hour := 0, minute := 0 },
      category := none, location := none, summary := "", description := "",
      uid := "" }

/-- Witness for C5 at a concrete export. -/
theorem c5_uid_deterministic_witness : uidOk c5ev :=
  (c5_uid_deterministic [weekOne] ["Headline 1"] 2024).2 c5events (by decide)
    c5ev (by decide)

theorem entriesLoop_entries (times : Times) (sources : List String) (dayDate : Int)
    (time : String) (entries : List Lecture) :
    ∀ acc res, entriesLoop times sources dayDate time acc entries = .ok res →
      ∀ entry ∈ entries, ∃ ev, makeEvent times sources dayDate time entry = .ok ev := by
  induction entries with
  | nil =>
    intro acc res h entry hentry
    cases hentry
  | cons e0 rest ih =>
    intro acc res h entry hentry
    simp only [entriesLoop] at h
    cases hm : makeEvent times sources dayDate time e0 with
    | error e => rw [hm, ebind_err] at h; cases h
    | ok ev0 =>
      rw [hm, ebind_ok] at h
      rcases List.mem_cons.mp hentry with rfl | hin
      · exact ⟨ev0, hm⟩
      · exact ih _ _ h entry hin

theorem slotsLoop_entries (times : Times) (sources : List String) (dayDate : Int)
    (dayData : DayMap) :
    ∀ acc res, slotsLoop times sources dayDate acc dayData = .ok res →
      ∀ p ∈ dayData, ∀ entry ∈ p.2,
        ∃ ev, makeEvent times sources dayDate p.1 entry = .ok ev := by
  induction dayData with
  | nil =>
    intro acc res h p hp
    cases hp
  | cons q rest ih =>
    intro acc res h p hp
    obtain ⟨time, entries⟩ := q
    simp only [slotsLoop] at h
    cases he : entriesLoop times sources dayDate time acc entries with
    | error e => rw [he, ebind_err] at h; cases h
    | ok acc' =>
      rw [he, ebind_ok] at h
      rcases List.mem_cons.mp hp with rfl | hin
      · exact entriesLoop_entries _ _ _ _ _ _ _ he
      · exact ih _ _ h p hin

theorem daysLoop_entries (times : Times) (sources : List String) (beginDate : Int)
    (week : WeeklySchedule) (days : List Nat) :
    ∀ acc res, daysLoop times sources beginDate week acc days = .ok res →
      ∀ day ∈ days, ∀ dm, week.data.get? day = some dm →
        ∀ p ∈ dm, ∀ entry ∈ p.2,
          ∃ ev, makeEvent times sources (beginDate + (day : Int)) p.1 entry = .ok ev := by
  induction days with
  | nil =>
    intro acc res h day hday
    cases hday
  | cons d0 rest ih =>
    intro acc res h day hday
    simp only [daysLoop] at h
    cases hd : week.data.get? d0 with
    | none => rw [hd, eOfOption_none, ebind_err] at h; cases h
    | some dayData =>
      rw [hd, eOfOption_some, ebind_ok] at h
      cases hs : slotsLoop times sources (beginDate + (d0 : Int)) acc dayData with
      | error e => rw [hs, ebind_err] at h; cases h
      | ok acc' =>
        rw [hs, ebind_ok] at h
        rcases List.mem_cons.mp hday with rfl | hin
        · intro dm hdm
          rw [hd] at hdm
          cases hdm
          exact slotsLoop_entries _ _ _ _ _ _ hs
        · exact ih _ _ h day hin

/-- C10: when `make_ical` completes without raising, every record it
exported (every record of the first week's five weekday maps — weeks
beyond the first are never processed, cf. C1) has a room string that
matches the room regex, i.e. contains the `" - "` separator: a record
whose room lacks it gets no `location`, and the unconditional
`event.location.value` read in the uid derivation (line 490) would have
raised an `AttributeError`. -/
theorem c10_location_required (data : List WeeklySchedule) (sources : List String)
    (nowYear : Nat) (evs : List IcalEvent)
    (h : make_ical data sources nowYear = .ok evs) :
    ∀ w, data.head? = some w →
      ∀ day, day < 5 → ∀ dm, w.data.get? day = some dm →
        ∀ p ∈ dm, ∀ entry ∈ p.2, (roomMatch entry.room).isSome = true := by
  intro w hw day hday dm hdm p hp entry hentry
  simp only [make_ical] at h
  rw [hw, eOfOption_some, ebind_ok] at h
  cases htm : timesLoop [] w.order with
  | error e => rw [htm, ebind_err] at h; cases h
  | ok tm =>
    rw [htm, ebind_ok] at h
    cases hb : beginDateUpd w.week nowYear none with
    | error e => rw [hb, ebind_err] at h; cases h
    | ok d =>
      rw [hb, ebind_ok] at h
      have hmem : day ∈ [0, 1, 2, 3, 4] := by
        simp only [List.mem_cons, List.not_mem_nil, or_false]
        omega
      obtain ⟨ev, hev⟩ :=
        daysLoop_entries tm sources d w [0, 1, 2, 3, 4] [] evs h day hmem dm hdm
          p hp entry hentry
      exact makeEvent_room _ _ _ _ _ _ hev

/-- Witness for C10 at a concrete successful export. -/
theorem c10_location_required_witness : (roomMatch lecCS.room).isSome = true :=
  c10_location_required [weekOne] ["Headline 1"] 2024 c5events (by decide)
    weekOne (by decide) 0 (by decide) (weekOne.data.getD 0 []) (by decide)
    ("8.00 - 9.30", [lecCS]) (by decide) lecCS (by decide)

/-! ### Claim C8 -/

/-- A block that emits a record per the claim: exactly three lines and
a stripped third line other than `"-"`. -/
def goodBlock (elem : String) : Bool :=
  decide ((pySplit elem "\n").length = 3) &&
    decide (pyStrip ((pySplit elem "\n").getD 2 "") ≠ "-")

/-- Whether the stripped second line of a block splits on a single
space into exactly two fields (the condition line 162 needs to avoid a
`ValueError`). -/
def splitsInTwo (elem : String) : Bool :=
  decide ((pySplit (pyStrip ((pySplit elem "\n").getD 1 "")) " ").length = 2)

theorem splitCellLoop_count (blocks : List String) (acc : List Lecture)
    (h : ∀ elem ∈ blocks, goodBlock elem = true → splitsInTwo elem = true) :
    (splitCellLoop acc blocks).map List.length =
      .ok (acc.length + blocks.countP goodBlock) := by
  induction blocks generalizing acc with
  | nil => simp [splitCellLoop, Except.map]
  | cons elem rest ih =>
    have hrest : ∀ e ∈ rest, goodBlock e = true → splitsInTwo e = true :=
      fun e he => h e (List.mem_cons_of_mem _ he)
    simp only [splitCellLoop]
    by_cases h3 : (pySplit elem "\n").length = 3
    · rw [if_pos h3]
      by_cases hdash : pyStrip ((pySplit elem "\n").getD 2 "") = "-"
      · rw [if_neg (not_not_intro hdash)]
        have hgb : goodBlock elem = false := by
          unfold goodBlock
          rw [decide_eq_false (not_not_intro hdash), Bool.and_false]
        rw [ih _ hrest, List.countP_cons, hgb]
        simp
      · rw [if_pos hdash]
        have hgb : goodBlock elem = true := by
          unfold goodBlock
          rw [decide_eq_true h3, decide_eq_true hdash]
          rfl
        have h2 : (pySplit (pyStrip ((pySplit elem "\n").getD 1 "")) " ").length = 2 :=
          of_decide_eq_true (h elem (by simp) hgb)
        rw [if_pos h2, ih _ hrest, List.countP_cons, hgb]
        simp only [Except.ok.injEq, List.length_append, List.length_cons,
          List.length_nil, if_true]
        omega
    · rw [if_neg h3]
      have hgb : goodBlock elem = false := by
        unfold goodBlock
        rw [decide_eq_false h3, Bool.false_and]
      rw [ih _ hrest, List.countP_cons, hgb]
      simp

/-- C8, corrected: a block of exactly three lines with a stripped third
line other than `"-"` contributes one record only when its stripped
second line splits on `" "` into exactly two fields; under that proviso
`splitCell` succeeds and returns exactly one record per such block,
while blocks with any other line count and blocks whose third line is
`"-"` contribute nothing and never raise. -/
theorem c8_count_amended (cell : String)
    (h : ∀ elem ∈ pySplit cell "\n\n", goodBlock elem = true → splitsInTwo elem = true) :
    (splitCell cell).map List.length =
      .ok ((pySplit cell "\n\n").countP goodBlock) := by
  have := splitCellLoop_count (pySplit cell "\n\n") [] h
  simpa [splitCell] using this

/-- C8, counterexample to the claim as stated: the cell below is a
single block of exactly three lines whose third line is not `"-"`, yet
`splitCell` raises a `ValueError` (the second line `"CS"` has no space
to split short code and type on) instead of returning one record. -/
theorem c8_counterexample :
    (pySplit "Compilers\nCS\nR1.10 - Hollas" "\n\n").countP goodBlock = 1 ∧
    splitCell "Compilers\nCS\nR1.10 - Hollas" =
      .error (.valueError "values to unpack: 1") := by
  constructor
  · decide
  · decide

/-- Witness for the amended C8 on a cell with one emitting block, one
two-line block and one `"-"` block. -/
theorem c8_count_amended_witness :
    (splitCell "Compilers\nCS V\nR1.10 - Hollas\n\nshort\nblock\n\nFree\nX P\n-").map
        List.length =
      .ok ((pySplit "Compilers\nCS V\nR1.10 - Hollas\n\nshort\nblock\n\nFree\nX P\n-" "\n\n").countP
        goodBlock) :=
  c8_count_amended _ (by decide)

end Stupl
